import Mathlib

/-!
Verification of the crypto-streaming-dashboard frontend stream logic.

The definitions below are a shallow embedding of the TypeScript sources:
  * `src/frontend/src/types/rates.ts` — the data model,
  * `src/frontend/src/hooks/useRatesStream.ts` — `fromSnapshot`,
    `appendHistoryPoint` and the `start` routine of `useRatesStream`,
  * `src/components/MiniChart/MiniChart.tsx` — the chart normalisation.
JavaScript numbers are modelled as rationals, ISO timestamps as strings.
-/

namespace CryptoDash

/-- `PricePoint` from `types/rates.ts`: one chart point. -/
structure PricePoint where
  timestamp : String
  price : ℚ
deriving DecidableEq, Repr

/-- `PairState` from `types/rates.ts`: frontend state of a single pair.
`number | null` fields become `Option ℚ`, the ISO timestamp a `String`. -/
structure PairState where
  pair : String
  price : Option ℚ
  hourly_avg : Option ℚ
  last_update : Option String
  history : List PricePoint
deriving DecidableEq, Repr

/-- `RateUpdateMessage` from `types/rates.ts`: one WebSocket update. -/
structure RateUpdateMessage where
  pair : String
  price : ℚ
  hourly_avg : ℚ
  last_update : String
deriving DecidableEq, Repr

/-- `Omit<PairState, 'history'>`: one entry of the REST snapshot payload
as consumed by `fromSnapshot`. -/
structure SnapshotPair where
  pair : String
  price : Option ℚ
  hourly_avg : Option ℚ
  last_update : Option String
deriving DecidableEq, Repr

/-- `MAX_POINTS` in `useRatesStream.ts`. -/
def MAX_POINTS : ℕ := 40

/-- `fromSnapshot` in `useRatesStream.ts`: spread each snapshot entry and
attach an empty history array. -/
def fromSnapshot (snapshot : List SnapshotPair) : List PairState :=
  snapshot.map (fun s =>
    { pair := s.pair
      price := s.price
      hourly_avg := s.hourly_avg
      last_update := s.last_update
      history := [] })

/-- The `splice(0, length - MAX_POINTS)` trim in `appendHistoryPoint`:
when the list is longer than `MAX_POINTS`, drop the excess from the front. -/
def trimHistory (h : List PricePoint) : List PricePoint :=
  if h.length > MAX_POINTS then h.drop (h.length - MAX_POINTS) else h

/-- The `point` built at the top of `appendHistoryPoint` from the
incoming message: `{timestamp: update.last_update, price: update.price}`. -/
def toPoint (update : RateUpdateMessage) : PricePoint :=
  { timestamp := update.last_update, price := update.price }

/-- The body of the `current.map` callback in `appendHistoryPoint`:
an unrelated pair is returned as is; the matching pair gets the new
price / hourly_avg / last_update and the point appended then trimmed. -/
def updatePair (update : RateUpdateMessage) (pair : PairState) : PairState :=
  if pair.pair ≠ update.pair then pair
  else
    { pair with
      price := some update.price
      hourly_avg := some update.hourly_avg
      last_update := some update.last_update
      history := trimHistory (pair.history ++ [toPoint update]) }

/-- `appendHistoryPoint` in `useRatesStream.ts`. -/
def appendHistoryPoint (current : List PairState) (update : RateUpdateMessage) :
    List PairState :=
  current.map (updatePair update)

/-- Repeated application of `appendHistoryPoint`, one call per received
WebSocket message, in arrival order. -/
def applyUpdates (current : List PairState) (updates : List RateUpdateMessage) :
    List PairState :=
  updates.foldl appendHistoryPoint current

/-- The effect of a sequence of updates on one pair entry: `updatePair`
folded in arrival order. -/
def applyUpdatesToPair (p : PairState) (updates : List RateUpdateMessage) : PairState :=
  updates.foldl (fun q v => updatePair v q) p

/-- The last `MAX_POINTS` elements of a list, in order. -/
def keepLast (l : List PricePoint) : List PricePoint :=
  l.drop (l.length - MAX_POINTS)

/-- `ConnectionStatus` in `useRatesStream.ts`. -/
inductive ConnectionStatus where
  | idle
  | connecting
  | connected
  | closed
  | error
deriving DecidableEq, Repr

/-- The three `useState` cells of the `useRatesStream` hook. -/
structure HookState where
  rates : List PairState
  connectionStatus : ConnectionStatus
  error : Option String
deriving DecidableEq, Repr

/-- The `useState` initial values: empty rates, `idle` status, no error. -/
def initialHookState : HookState :=
  { rates := [], connectionStatus := .idle, error := none }

/-- A WebSocket callback invocation. A `message` event carries the result
of `JSON.parse` on its data: `some msg` when parsing succeeded, `none`
when it threw (malformed message). -/
inductive WsEvent where
  | wsOpen
  | message (parsed : Option RateUpdateMessage)
  | wsError
  | wsClose
deriving DecidableEq, Repr

/-- The four handlers installed on the socket by `start`:
`onopen`, `onmessage` (with its internal try/catch), `onerror`, `onclose`. -/
def handleWsEvent (s : HookState) : WsEvent → HookState
  | .wsOpen => { s with connectionStatus := .connected, error := none }
  | .message (some msg) => { s with rates := appendHistoryPoint s.rates msg }
  | .message none => s
  | .wsError =>
    { s with connectionStatus := .error, error := some "WebSocket connection error." }
  | .wsClose => { s with connectionStatus := .closed }

/-- The first try/catch of `start`: on a successful fetch the snapshot is
applied via `fromSnapshot`; on failure only the error field is set. -/
def fetchPhase (s : HookState) (fetch : Except String (List SnapshotPair)) :
    HookState :=
  match fetch with
  | .ok snapshot => { s with rates := fromSnapshot snapshot }
  | .error _ => { s with error := some "Failed to load initial rates." }

/-- The whole `start` routine as a state transformer: fetch phase, then
`setConnectionStatus('connecting')`, then the WebSocket. `wsOk` tells
whether the `new WebSocket(wsUrl)` constructor succeeded; when it did the
installed handlers process the socket's events in order. -/
def runStart (s₀ : HookState) (fetch : Except String (List SnapshotPair))
    (wsOk : Bool) (events : List WsEvent) : HookState :=
  let s₁ := fetchPhase s₀ fetch
  let s₂ := { s₁ with connectionStatus := .connecting }
  if wsOk then
    events.foldl handleWsEvent s₂
  else
    { s₂ with connectionStatus := .error
              error := some "Could not open WebSocket connection." }

/-- Observable actions of one run of `start`, used to state ordering
properties of the routine. -/
inductive HookAction where
  | applySnapshot (rates : List PairState)
  | recordFetchError
  | setStatus (st : ConnectionStatus)
  | attemptWS
  | wsOpened
  | mergeUpdate (msg : RateUpdateMessage)
  | dropMalformed
  | wsErrored
  | wsClosed
  | wsConstructFailed
deriving DecidableEq, Repr

/-- Actions performed by a single WebSocket handler invocation. -/
def eventActions : WsEvent → List HookAction
  | .wsOpen => [.wsOpened]
  | .message (some msg) => [.mergeUpdate msg]
  | .message none => [.dropMalformed]
  | .wsError => [.wsErrored]
  | .wsClose => [.wsClosed]

/-- The action trace of one run of `start`, in program order: the awaited
snapshot fetch completes (and is applied or its error recorded) before
`setConnectionStatus('connecting')` and before the WebSocket is even
constructed, so every handler action comes after it. -/
def startTrace (fetch : Except String (List SnapshotPair)) (wsOk : Bool)
    (events : List WsEvent) : List HookAction :=
  (match fetch with
   | .ok snapshot => [.applySnapshot (fromSnapshot snapshot)]
   | .error _ => [.recordFetchError]) ++
  [.setStatus .connecting, .attemptWS] ++
  (if wsOk then events.flatMap eventActions else [.wsConstructFailed])

/-- Recognises the snapshot-application action. -/
def isSnapshotAction : HookAction → Bool
  | .applySnapshot _ => true
  | _ => false

/-- Recognises a live per-pair merge action. -/
def isMergeAction : HookAction → Bool
  | .mergeUpdate _ => true
  | _ => false

end CryptoDash

namespace MiniChart

open CryptoDash

/-- `Math.min(...prices)` for the nonempty price list in `MiniChart`. -/
def listMin : List ℚ → ℚ
  | [] => 0
  | p :: ps => ps.foldl min p

/-- `Math.max(...prices)` for the nonempty price list in `MiniChart`. -/
def listMax : List ℚ → ℚ
  | [] => 0
  | p :: ps => ps.foldl max p

/-- `const max = Math.max(...prices) || 1` in `MiniChart.tsx`: a zero
maximum (falsy in JS) falls back to `1`. -/
def chartMax (prices : List ℚ) : ℚ :=
  if listMax prices = 0 then 1 else listMax prices

/-- `const range = max - min || 1` in `MiniChart.tsx`: a zero difference
falls back to `1`. -/
def chartRange (prices : List ℚ) : ℚ :=
  if chartMax prices - listMin prices = 0 then 1 else chartMax prices - listMin prices

/-- The `height` constant of `MiniChart`. -/
def chartHeight : ℚ := 60

/-- The per-point y coordinate of `MiniChart`:
`normalized = (p.price - min) / range; y = height - normalized * height`. -/
def chartY (prices : List ℚ) (p : ℚ) : ℚ :=
  chartHeight - (p - listMin prices) / chartRange prices * chartHeight

end MiniChart

namespace Backend

/-- Modelled from the spec: the backend in-memory aggregator (Pair State
Store plus Hourly Rollover Engine, spec §3–§4.2) is not part of the
frontend sources. A `Tick` is one price observation; timestamps are
rationals measured in seconds. -/
structure Tick where
  pair : String
  price : ℚ
  observed_at : ℚ
deriving DecidableEq, Repr

/-- Modelled from the spec: the per-pair hour-bucket accumulator
`{sum_of_prices, tick_count, bucket_start}` of spec §3. -/
structure Bucket where
  sum_of_prices : ℚ
  tick_count : ℕ
  bucket_start : ℚ
deriving DecidableEq, Repr

/-- Modelled from the spec: the backend per-pair state of spec §3, with
all fields absent before the first tick. -/
structure BPairState where
  last_price : Option ℚ
  hourly_average : Option ℚ
  last_update : Option ℚ
  bucket : Option Bucket
  recent_history : List (ℚ × ℚ)
deriving DecidableEq, Repr

/-- Modelled from the spec: the freshly created state of a pair, all
fields absent. -/
def emptyBPairState : BPairState :=
  { last_price := none, hourly_average := none, last_update := none
    bucket := none, recent_history := [] }

/-- Modelled from the spec: `continues_bucket(bucket_start, observed_at)`
of §4.2, true iff `observed_at - bucket_start < 1 hour` and
`observed_at >= bucket_start`. One hour is 3600 seconds. -/
def continues_bucket (bucket_start observed_at : ℚ) : Bool :=
  decide (bucket_start ≤ observed_at) && decide (observed_at - bucket_start < 3600)

/-- Modelled from the spec: a tick with a timestamp earlier than the
pair's `last_update` is rejected (§4.1). -/
def staleTick (s : BPairState) (t : Tick) : Bool :=
  match s.last_update with
  | some u => decide (t.observed_at < u)
  | none => false

/-- Modelled from the spec: `apply_tick` of §4.1 for one pair. A
non-positive price or a timestamp regression is ignored; otherwise the
bucket is continued or reset per `continues_bucket`, `hourly_average` is
recomputed as `sum_of_prices / tick_count`, `last_price`/`last_update`
are set from the tick and the point is appended to `recent_history`
trimmed to 40 from the front. -/
def apply_tick (s : BPairState) (t : Tick) : BPairState :=
  if t.price ≤ 0 then s
  else if staleTick s t then s
  else
    let b : Bucket :=
      match s.bucket with
      | some b =>
        if continues_bucket b.bucket_start t.observed_at then
          { sum_of_prices := b.sum_of_prices + t.price
            tick_count := b.tick_count + 1
            bucket_start := b.bucket_start }
        else
          { sum_of_prices := t.price, tick_count := 1, bucket_start := t.observed_at }
      | none =>
        { sum_of_prices := t.price, tick_count := 1, bucket_start := t.observed_at }
    let hist := s.recent_history ++ [(t.observed_at, t.price)]
    { last_price := some t.price
      hourly_average := some (b.sum_of_prices / (b.tick_count : ℚ))
      last_update := some t.observed_at
      bucket := some b
      recent_history := if hist.length > 40 then hist.drop (hist.length - 40) else hist }

/-- Folding `apply_tick` over a sequence of ticks for one pair, in
arrival order. -/
def applyTicks (s : BPairState) (ts : List Tick) : BPairState :=
  ts.foldl apply_tick s

/-- The hypothesis of the hourly-average claim: starting from a bucket
opened at `t0` whose last accepted tick arrived at `u`, the remaining
ticks have positive prices and strictly increasing timestamps that all
stay inside the hour window `[t0, t0 + 3600)`. -/
def SameHourChain (t0 : ℚ) : ℚ → List Tick → Prop
  | _, [] => True
  | u, t :: ts =>
    0 < t.price ∧ u < t.observed_at ∧ t0 ≤ t.observed_at ∧
      t.observed_at - t0 < 3600 ∧ SameHourChain t0 t.observed_at ts

end Backend

/-! ### Helper lemmas about the frontend definitions -/

namespace CryptoDash

/-- `updatePair` never changes the `pair` field. -/
theorem updatePair_pair (u : RateUpdateMessage) (p : PairState) :
    (updatePair u p).pair = p.pair := by
  unfold updatePair
  split <;> rfl

/-- A non-matching pair is returned unchanged by `updatePair`. -/
theorem updatePair_of_ne (u : RateUpdateMessage) (p : PairState)
    (h : p.pair ≠ u.pair) : updatePair u p = p := by
  simp [updatePair, h]

/-- A matching pair gets the message's fields and the appended, trimmed
history. -/
theorem updatePair_of_eq (u : RateUpdateMessage) (p : PairState)
    (h : p.pair = u.pair) :
    updatePair u p =
      { pair := p.pair
        price := some u.price
        hourly_avg := some u.hourly_avg
        last_update := some u.last_update
        history := trimHistory (p.history ++ [toPoint u]) } := by
  simp [updatePair, h]

/-- Index view of `appendHistoryPoint`: entry `i` is `updatePair` of the
old entry `i`. -/
theorem appendHistoryPoint_getElem? (current : List PairState)
    (u : RateUpdateMessage) (i : ℕ) :
    (appendHistoryPoint current u)[i]? = (current[i]?).map (updatePair u) := by
  simp [appendHistoryPoint]

/-- Index view of `applyUpdates`: entry `i` after a message sequence is
the fold of `updatePair` over that sequence on the old entry `i`. -/
theorem applyUpdates_getElem? (us : List RateUpdateMessage) :
    ∀ (current : List PairState) (i : ℕ),
      (applyUpdates current us)[i]? =
        (current[i]?).map (fun p => applyUpdatesToPair p us) := by
  induction us with
  | nil =>
    intro current i
    simp [applyUpdates, applyUpdatesToPair]
  | cons u us ih =>
    intro current i
    have h1 : applyUpdates current (u :: us) =
        applyUpdates (appendHistoryPoint current u) us := rfl
    rw [h1, ih, appendHistoryPoint_getElem?]
    cases current[i]? <;> simp [applyUpdatesToPair]

/-- Messages for other pairs do not move an entry: the fold equals the
fold over the entry's own sub-sequence of messages. -/
theorem applyUpdatesToPair_filter (us : List RateUpdateMessage) :
    ∀ p : PairState,
      applyUpdatesToPair p us =
        applyUpdatesToPair p (us.filter (fun v => v.pair == p.pair)) := by
  induction us with
  | nil => intro p; rfl
  | cons u us ih =>
    intro p
    by_cases hb : u.pair = p.pair
    · have hfil : (u :: us).filter (fun v => v.pair == p.pair) =
          u :: us.filter (fun v => v.pair == p.pair) := by
        simp [List.filter_cons, hb]
      rw [hfil]
      show applyUpdatesToPair (updatePair u p) us =
        applyUpdatesToPair (updatePair u p) (us.filter (fun v => v.pair == p.pair))
      have := ih (updatePair u p)
      rwa [updatePair_pair] at this
    · have hfil : (u :: us).filter (fun v => v.pair == p.pair) =
          us.filter (fun v => v.pair == p.pair) := by
        simp [List.filter_cons, hb]
      rw [hfil]
      show applyUpdatesToPair (updatePair u p) us =
        applyUpdatesToPair p (us.filter (fun v => v.pair == p.pair))
      rw [updatePair_of_ne u p (fun h => hb h.symm)]
      exact ih p

/-- The trim of `appendHistoryPoint` always keeps exactly the last
`MAX_POINTS` elements (dropping zero elements when short enough). -/
theorem trimHistory_eq_keepLast (h : List PricePoint) :
    trimHistory h = keepLast h := by
  unfold trimHistory keepLast
  split
  · rfl
  · rename_i hle
    have : h.length - MAX_POINTS = 0 := by omega
    rw [this, List.drop_zero]

/-- `keepLast` keeps at most `MAX_POINTS` elements. -/
theorem keepLast_length_le (l : List PricePoint) :
    (keepLast l).length ≤ MAX_POINTS := by
  unfold keepLast
  rw [List.length_drop]
  omega

/-- Trimming, appending more and trimming again is the same as trimming
the full concatenation once. -/
theorem keepLast_append (x y : List PricePoint) :
    keepLast (keepLast x ++ y) = keepLast (x ++ y) := by
  unfold keepLast
  simp only [List.drop_append_eq_append_drop, List.length_drop, List.length_append,
    List.drop_drop]
  have h1 : x.length - MAX_POINTS +
      (x.length - (x.length - MAX_POINTS) + y.length - MAX_POINTS) =
      x.length + y.length - MAX_POINTS := by omega
  have h2 : x.length - (x.length - MAX_POINTS) + y.length - MAX_POINTS -
      (x.length - (x.length - MAX_POINTS)) = x.length + y.length - MAX_POINTS - x.length := by
    omega
  rw [h1, h2]

/-- Closed form for the history of a pair hit by a sequence of its own
messages: the last `MAX_POINTS` of the old history followed by the new
points, in arrival order. -/
theorem applyUpdatesToPair_history (vs : List RateUpdateMessage) :
    ∀ p : PairState, (∀ v ∈ vs, v.pair = p.pair) →
      p.history.length ≤ MAX_POINTS →
      (applyUpdatesToPair p vs).history = keepLast (p.history ++ vs.map toPoint) := by
  induction vs with
  | nil =>
    intro p _ hlen
    show p.history = keepLast (p.history ++ [])
    unfold keepLast
    have : (p.history ++ []).length - MAX_POINTS = 0 := by
      simp; omega
    rw [this, List.drop_zero, List.append_nil]
  | cons v vs ih =>
    intro p hmatch hlen
    have hv : v.pair = p.pair := hmatch v (List.mem_cons_self v vs)
    show (applyUpdatesToPair (updatePair v p) vs).history = _
    have hupd := updatePair_of_eq v p hv.symm
    have hpair : (updatePair v p).pair = p.pair := updatePair_pair v p
    have hmatch2 : ∀ w ∈ vs, w.pair = (updatePair v p).pair := by
      intro w hw
      rw [hpair]
      exact hmatch w (List.mem_cons_of_mem v hw)
    have hhist : (updatePair v p).history = keepLast (p.history ++ [toPoint v]) := by
      rw [hupd, trimHistory_eq_keepLast]
    have hlen2 : (updatePair v p).history.length ≤ MAX_POINTS := by
      rw [hhist]; exact keepLast_length_le _
    rw [ih (updatePair v p) hmatch2 hlen2, hhist, keepLast_append,
      List.append_assoc]
    rfl

end CryptoDash

/-! ### Claim theorems -/

section Claims

open CryptoDash MiniChart Backend

/-- Concrete tracked pair used in witnesses and counterexamples. -/
def ethPair : PairState :=
  { pair := "ETHUSDT", price := some 100, hourly_avg := some 100
    last_update := some "2024-01-01T00:00:00Z", history := [] }

/-- Concrete update for a pair absent from the tracked state. -/
def btcUpdate : RateUpdateMessage :=
  { pair := "BTCUSDT", price := 50, hourly_avg := 50
    last_update := "2024-01-01T00:00:01Z" }

/-- Concrete update for the tracked pair. -/
def ethUpdate : RateUpdateMessage :=
  { pair := "ETHUSDT", price := 101, hourly_avg := 101
    last_update := "2024-01-01T00:00:02Z" }

/-- Claim C2: `appendHistoryPoint` returns every pair whose symbol
differs from the message's pair unchanged, and under a sequence of
updates each entry's final state is the fold of its own sub-sequence of
matching updates. -/
theorem claim_C2 (current : List PairState) (u : RateUpdateMessage) (i : ℕ)
    (p : PairState) (hp : current[i]? = some p) :
    (p.pair ≠ u.pair → (appendHistoryPoint current u)[i]? = some p) ∧
    ∀ us : List RateUpdateMessage,
      (applyUpdates current us)[i]? =
        some (applyUpdatesToPair p (us.filter (fun v => v.pair == p.pair))) := by
  constructor
  · intro hne
    rw [appendHistoryPoint_getElem?, hp]
    simp [updatePair_of_ne u p hne]
  · intro us
    rw [applyUpdates_getElem? us current i, hp]
    simp [applyUpdatesToPair_filter]

/-- Witness for C2 at a concrete state and updates. -/
theorem claim_C2_witness :
    (appendHistoryPoint [ethPair] btcUpdate)[0]? = some ethPair ∧
    (applyUpdates [ethPair] [btcUpdate, ethUpdate])[0]? =
      some (applyUpdatesToPair ethPair
        ([btcUpdate, ethUpdate].filter (fun v => v.pair == ethPair.pair))) := by
  have h := claim_C2 [ethPair] btcUpdate 0 ethPair rfl
  exact ⟨h.1 (by decide), h.2 [btcUpdate, ethUpdate]⟩

/-- Claim C3: a matching pair gets the message's price, hourly_avg and
last_update, and the point `(last_update, price)` is appended at the end
of its history before the trim. -/
theorem claim_C3 (current : List PairState) (u : RateUpdateMessage) (i : ℕ)
    (p : PairState) (hp : current[i]? = some p) (hpair : p.pair = u.pair) :
    (appendHistoryPoint current u)[i]? = some
      { pair := p.pair
        price := some u.price
        hourly_avg := some u.hourly_avg
        last_update := some u.last_update
        history := trimHistory (p.history ++ [toPoint u]) } := by
  rw [appendHistoryPoint_getElem?, hp]
  simp [updatePair_of_eq u p hpair]

/-- Witness for C3 at a concrete state and update. -/
theorem claim_C3_witness :
    (appendHistoryPoint [ethPair] ethUpdate)[0]? = some
      { pair := ethPair.pair
        price := some ethUpdate.price
        hourly_avg := some ethUpdate.hourly_avg
        last_update := some ethUpdate.last_update
        history := trimHistory (ethPair.history ++ [toPoint ethUpdate]) } :=
  claim_C3 [ethPair] ethUpdate 0 ethPair rfl rfl

/-- Counterexample to claim C5 as stated: an update for a pair absent
from the state does not create new per-pair state; `appendHistoryPoint`
returns the state unchanged and the update is lost. -/
theorem claim_C5_counterexample :
    appendHistoryPoint [ethPair] btcUpdate = [ethPair] ∧
    "BTCUSDT" ∉ (appendHistoryPoint [ethPair] btcUpdate).map PairState.pair := by
  decide

/-- Claim C5 as amended: an update whose pair matches no tracked entry
leaves the state unchanged — it is not an error, but no new per-pair
state is created and the update is dropped. -/
theorem claim_C5 (current : List PairState) (u : RateUpdateMessage)
    (h : ∀ p ∈ current, p.pair ≠ u.pair) :
    appendHistoryPoint current u = current := by
  induction current with
  | nil => rfl
  | cons p ps ih =>
    show updatePair u p :: appendHistoryPoint ps u = p :: ps
    rw [updatePair_of_ne u p (h p (List.mem_cons_self p ps)),
      ih (fun q hq => h q (List.mem_cons_of_mem p hq))]

/-- Witness for the amended C5 at a concrete state and update. -/
theorem claim_C5_witness :
    appendHistoryPoint [ethPair] btcUpdate = [ethPair] :=
  claim_C5 [ethPair] btcUpdate (by decide)

/-- Claim C7: a malformed (unparseable) WebSocket message is dropped
without effect: the handler returns the hook state unchanged, in
particular rates and connection status are untouched. -/
theorem claim_C7 (s : HookState) :
    handleWsEvent s (WsEvent.message none) = s ∧
    (handleWsEvent s (WsEvent.message none)).rates = s.rates ∧
    (handleWsEvent s (WsEvent.message none)).connectionStatus = s.connectionStatus :=
  ⟨rfl, rfl, rfl⟩

/-- Claim C8: when the initial snapshot fetch fails, the error is
recorded, the rates are left as they were (empty), the WebSocket is
still attempted and its events are still processed by the handlers. -/
theorem claim_C8 (msg : String) (events : List WsEvent) :
    (fetchPhase initialHookState (Except.error msg)).rates = initialHookState.rates ∧
    (fetchPhase initialHookState (Except.error msg)).error =
      some "Failed to load initial rates." ∧
    HookAction.attemptWS ∈ startTrace (Except.error msg) true events ∧
    runStart initialHookState (Except.error msg) true events =
      events.foldl handleWsEvent
        { rates := []
          connectionStatus := .connecting
          error := some "Failed to load initial rates." } := by
  refine ⟨rfl, rfl, ?_, rfl⟩
  simp [startTrace]

/-- Claim C9: `fromSnapshot` preserves length and order, copies the four
scalar fields of every entry and attaches an empty history. -/
theorem claim_C9 (snapshot : List SnapshotPair) :
    (fromSnapshot snapshot).length = snapshot.length ∧
    ∀ (i : ℕ) (s : SnapshotPair), snapshot[i]? = some s →
      (fromSnapshot snapshot)[i]? = some
        { pair := s.pair, price := s.price, hourly_avg := s.hourly_avg
          last_update := s.last_update, history := [] } := by
  constructor
  · simp [fromSnapshot]
  · intro i s hs
    simp [fromSnapshot, hs]

/-- Concrete snapshot entry used in the C9 witness. -/
def snapEntry : SnapshotPair :=
  { pair := "ETHUSDT", price := some 100, hourly_avg := some 99
    last_update := some "2024-01-01T00:00:00Z" }

/-- Witness for C9 at a concrete snapshot. -/
theorem claim_C9_witness :
    (fromSnapshot [snapEntry]).length = 1 ∧
    (fromSnapshot [snapEntry])[0]? = some
      { pair := snapEntry.pair, price := snapEntry.price
        hourly_avg := snapEntry.hourly_avg
        last_update := snapEntry.last_update, history := [] } := by
  have h := claim_C9 [snapEntry]
  exact ⟨h.1, h.2 0 snapEntry rfl⟩

/-- Claim C10: for a non-empty point list the `MiniChart` normalisation
divisor is never zero, and when the maximum equals the minimum price it
is the fallback value 1, so every y coordinate is well-defined. -/
theorem claim_C10 (points : List PricePoint) (_hne : points ≠ []) :
    chartRange (points.map PricePoint.price) ≠ 0 ∧
    (listMax (points.map PricePoint.price) = listMin (points.map PricePoint.price) →
      chartRange (points.map PricePoint.price) = 1) := by
  constructor
  · unfold chartRange
    split
    · exact one_ne_zero
    · rename_i hne0
      exact fun hc => hne0 hc
  · intro hmm
    unfold chartRange chartMax
    rw [hmm]
    by_cases h0 : listMin (points.map PricePoint.price) = 0
    · rw [if_pos h0, h0]
      norm_num
    · rw [if_neg h0]
      simp

/-- Concrete chart points used in the C10 witness. -/
def cPoint1 : PricePoint := { timestamp := "2024-01-01T00:00:00Z", price := 5 }

/-- Second concrete chart point used in the C10 witness. -/
def cPoint2 : PricePoint := { timestamp := "2024-01-01T00:00:01Z", price := 5 }

/-- Witness for C10 at a concrete flat price list. -/
theorem claim_C10_witness :
    chartRange ([cPoint1, cPoint2].map PricePoint.price) ≠ 0 ∧
    chartRange ([cPoint1, cPoint2].map PricePoint.price) = 1 := by
  have h := claim_C10 [cPoint1, cPoint2] (by decide)
  exact ⟨h.1, h.2 (by decide)⟩

/-- Claim C1: under any message sequence a tracked pair's history never
exceeds `MAX_POINTS` entries, and at the end it equals the most recent
(at most `MAX_POINTS`) points appended for that pair, in arrival order. -/
theorem claim_C1 (state : List PairState) (us : List RateUpdateMessage) (i : ℕ)
    (p : PairState) (hp : state[i]? = some p) (hemp : p.history = []) :
    (∀ (k : ℕ) (q : PairState), (applyUpdates state (us.take k))[i]? = some q →
      q.history.length ≤ MAX_POINTS) ∧
    ∀ q : PairState, (applyUpdates state us)[i]? = some q →
      q.history = keepLast ((us.filter (fun v => v.pair == p.pair)).map toPoint) := by
  have hlen0 : p.history.length ≤ MAX_POINTS := by
    rw [hemp]; exact Nat.zero_le _
  have key : ∀ l : List RateUpdateMessage,
      (applyUpdatesToPair p l).history =
        keepLast ((l.filter (fun v => v.pair == p.pair)).map toPoint) := by
    intro l
    rw [applyUpdatesToPair_filter l p]
    have hmem : ∀ v ∈ l.filter (fun v => v.pair == p.pair), v.pair = p.pair := by
      intro v hv
      exact eq_of_beq (List.mem_filter.mp hv).2
    rw [applyUpdatesToPair_history (l.filter (fun v => v.pair == p.pair)) p hmem hlen0,
      hemp, List.nil_append]
  constructor
  · intro k q hq
    rw [applyUpdates_getElem? (us.take k) state i, hp, Option.map_some'] at hq
    have hq' := Option.some.inj hq
    subst hq'
    rw [key]
    exact keepLast_length_le _
  · intro q hq
    rw [applyUpdates_getElem? us state i, hp, Option.map_some'] at hq
    have hq' := Option.some.inj hq
    subst hq'
    exact key us

/-- The pair state reached in the C1 witness scenario. -/
def c1q : PairState :=
  { pair := "ETHUSDT", price := some 101, hourly_avg := some 101
    last_update := some "2024-01-01T00:00:02Z"
    history := [{ timestamp := "2024-01-01T00:00:02Z", price := 101 }] }

/-- Witness for C1 at a concrete state and message sequence. -/
theorem claim_C1_witness :
    c1q.history.length ≤ MAX_POINTS ∧
    c1q.history = keepLast (([ethUpdate, btcUpdate].filter
      (fun v => v.pair == ethPair.pair)).map toPoint) := by
  have h := claim_C1 [ethPair] [ethUpdate, btcUpdate] 0 ethPair rfl rfl
  exact ⟨h.1 2 c1q (by decide), h.2 c1q (by decide)⟩

/-- WebSocket handler invocations never produce a snapshot application. -/
theorem eventActions_no_snapshot (e : WsEvent) :
    ∀ a ∈ eventActions e, isSnapshotAction a = false := by
  intro a ha
  cases e with
  | wsOpen =>
    simp only [eventActions, List.mem_singleton] at ha
    subst ha; rfl
  | message parsed =>
    cases parsed with
    | none =>
      simp only [eventActions, List.mem_singleton] at ha
      subst ha; rfl
    | some msg =>
      simp only [eventActions, List.mem_singleton] at ha
      subst ha; rfl
  | wsError =>
    simp only [eventActions, List.mem_singleton] at ha
    subst ha; rfl
  | wsClose =>
    simp only [eventActions, List.mem_singleton] at ha
    subst ha; rfl

/-- Every action following the snapshot application in a successful-fetch
trace of `start` is not a snapshot application. -/
theorem startTrace_tail_no_snapshot (wsOk : Bool) (events : List WsEvent) :
    ∀ a ∈ (HookAction.setStatus ConnectionStatus.connecting :: HookAction.attemptWS ::
      (if wsOk then events.flatMap eventActions else [HookAction.wsConstructFailed])),
      isSnapshotAction a = false := by
  intro a ha
  rcases List.mem_cons.mp ha with rfl | ha
  · rfl
  rcases List.mem_cons.mp ha with rfl | ha
  · rfl
  split at ha
  · obtain ⟨e, _, hae⟩ := List.mem_flatMap.mp ha
    exact eventActions_no_snapshot e a hae
  · rcases List.mem_singleton.mp ha with rfl
    rfl

/-- Claim C6: on a successful fetch, the `start` trace applies the
snapshot exactly once, and every live per-pair merge comes strictly
after it. -/
theorem claim_C6 (snapshot : List SnapshotPair) (wsOk : Bool) (events : List WsEvent) :
    (startTrace (Except.ok snapshot) wsOk events).countP isSnapshotAction = 1 ∧
    ∀ (i j : ℕ) (a b : HookAction),
      (startTrace (Except.ok snapshot) wsOk events)[i]? = some a →
      isSnapshotAction a →
      (startTrace (Except.ok snapshot) wsOk events)[j]? = some b →
      isMergeAction b → i < j := by
  have htr : startTrace (Except.ok snapshot) wsOk events =
      HookAction.applySnapshot (fromSnapshot snapshot) ::
        (HookAction.setStatus ConnectionStatus.connecting :: HookAction.attemptWS ::
          (if wsOk then events.flatMap eventActions else [HookAction.wsConstructFailed])) := rfl
  have hrest := startTrace_tail_no_snapshot wsOk events
  constructor
  · rw [htr, List.countP_cons_of_pos _ _ rfl, List.countP_eq_zero.mpr]
    intro a ha
    rw [hrest a ha]
    exact Bool.false_ne_true
  · intro i j a b hia hsa hjb hmb
    have hi0 : i = 0 := by
      by_contra hne
      obtain ⟨i', rfl⟩ : ∃ i', i = i' + 1 := ⟨i - 1, by omega⟩
      rw [htr, List.getElem?_cons_succ] at hia
      have hfalse := hrest a (List.getElem?_mem hia)
      rw [hsa] at hfalse
      exact Bool.noConfusion hfalse
    subst hi0
    rcases Nat.eq_zero_or_pos j with rfl | hj
    · rw [htr, List.getElem?_cons_zero] at hjb
      have hb := Option.some.inj hjb
      rw [← hb] at hmb
      exact absurd hmb (by simp [isMergeAction])
    · exact hj

/-- Witness for C6 at a concrete run with one live message. -/
theorem claim_C6_witness :
    (startTrace (Except.ok ([] : List SnapshotPair)) true
      [WsEvent.message (some ethUpdate)]).countP isSnapshotAction = 1 ∧ (0 : ℕ) < 3 := by
  have h := claim_C6 [] true [WsEvent.message (some ethUpdate)]
  exact ⟨h.1, h.2 0 3 (HookAction.applySnapshot []) (HookAction.mergeUpdate ethUpdate)
    (by decide) (by decide) (by decide) (by decide)⟩

/-- A prefix of a same-hour chain is a same-hour chain. -/
theorem sameHourChain_take (ts : List Tick) :
    ∀ (t0 u : ℚ) (m : ℕ), SameHourChain t0 u ts → SameHourChain t0 u (ts.take m) := by
  induction ts with
  | nil => intro t0 u m _; cases m <;> trivial
  | cons t ts ih =>
    intro t0 u m hchain
    cases m with
    | zero => trivial
    | succ m =>
      obtain ⟨h1, h2, h3, h4, h5⟩ := hchain
      exact ⟨h1, h2, h3, h4, ih t0 t.observed_at m h5⟩

/-- Invariant of `apply_tick` along a same-hour chain: the bucket
accumulates the sum and count of the accepted ticks and the hourly
average stays `sum / count`. -/
theorem applyTicks_chain (ts : List Tick) :
    ∀ (s : Backend.BPairState) (S : ℚ) (n : ℕ) (t0 u : ℚ),
      s.bucket = some ⟨S, n, t0⟩ →
      s.hourly_average = some (S / (n : ℚ)) →
      s.last_update = some u →
      t0 ≤ u →
      SameHourChain t0 u ts →
      (applyTicks s ts).bucket =
        some ⟨S + (ts.map Tick.price).sum, n + ts.length, t0⟩ ∧
      (applyTicks s ts).hourly_average =
        some ((S + (ts.map Tick.price).sum) / ((n + ts.length : ℕ) : ℚ)) ∧
      ∃ u2, (applyTicks s ts).last_update = some u2 ∧ t0 ≤ u2 := by
  induction ts with
  | nil =>
    intro s S n t0 u hb havg hu ht0u _
    refine ⟨by simpa using hb, by simpa using havg, u, by simpa using hu, ht0u⟩
  | cons t ts ih =>
    intro s S n t0 u hb havg hu ht0u hchain
    obtain ⟨hpos, hlt, hge, hwin, hchain2⟩ := hchain
    have hprice : ¬ t.price ≤ 0 := not_le.mpr hpos
    have hstale : staleTick s t = false := by
      unfold staleTick
      rw [hu]
      exact decide_eq_false (not_lt.mpr (le_of_lt hlt))
    have hcont : continues_bucket t0 t.observed_at = true := by
      unfold continues_bucket
      rw [Bool.and_eq_true, decide_eq_true_eq, decide_eq_true_eq]
      exact ⟨hge, hwin⟩
    have hb1 : (apply_tick s t).bucket = some ⟨S + t.price, n + 1, t0⟩ := by
      simp [apply_tick, hprice, hstale, hb, hcont]
    have havg1 : (apply_tick s t).hourly_average =
        some ((S + t.price) / ((n + 1 : ℕ) : ℚ)) := by
      simp [apply_tick, hprice, hstale, hb, hcont]
    have hu1 : (apply_tick s t).last_update = some t.observed_at := by
      simp [apply_tick, hprice, hstale, hb, hcont]
    have hres := ih (apply_tick s t) (S + t.price) (n + 1) t0 t.observed_at
      hb1 havg1 hu1 hge hchain2
    obtain ⟨hB, hA, u2, hU, hT⟩ := hres
    have e1 : S + t.price + (ts.map Tick.price).sum =
        S + ((t :: ts).map Tick.price).sum := by
      rw [List.map_cons, List.sum_cons]
      ring
    have e2 : n + 1 + ts.length = n + (t :: ts).length := by
      rw [List.length_cons]
      omega
    have hstep : applyTicks s (t :: ts) = applyTicks (apply_tick s t) ts := rfl
    refine ⟨?_, ?_, u2, ?_, hT⟩
    · rw [hstep, hB, e1, e2]
    · rw [hstep, hA, e1, e2]
    · rw [hstep, hU]

/-- Claim C4 (spec-modelled backend): along positive-price ticks with
strictly increasing timestamps inside one hour bucket, after each tick
the hourly average equals the arithmetic mean of the prices seen so far. -/
theorem claim_C4 (t1 : Tick) (ts : List Tick) (hpos : 0 < t1.price)
    (hchain : SameHourChain t1.observed_at t1.observed_at ts) :
    ∀ k : ℕ, 1 ≤ k → k ≤ (t1 :: ts).length →
      (applyTicks emptyBPairState ((t1 :: ts).take k)).hourly_average =
        some ((((t1 :: ts).take k).map Tick.price).sum / (k : ℚ)) := by
  intro k hk1 hklen
  obtain ⟨m, rfl⟩ : ∃ m, k = m + 1 := ⟨k - 1, by omega⟩
  rw [List.take_succ_cons]
  have hprice : ¬ t1.price ≤ 0 := not_le.mpr hpos
  have hb1 : (apply_tick emptyBPairState t1).bucket =
      some ⟨t1.price, 1, t1.observed_at⟩ := by
    simp [apply_tick, emptyBPairState, staleTick, hprice]
  have havg1 : (apply_tick emptyBPairState t1).hourly_average =
      some (t1.price / ((1 : ℕ) : ℚ)) := by
    simp [apply_tick, emptyBPairState, staleTick, hprice]
  have hu1 : (apply_tick emptyBPairState t1).last_update = some t1.observed_at := by
    simp [apply_tick, emptyBPairState, staleTick, hprice]
  have hres := applyTicks_chain (ts.take m) (apply_tick emptyBPairState t1)
    t1.price 1 t1.observed_at t1.observed_at hb1 havg1 hu1 le_rfl
    (sameHourChain_take ts t1.observed_at t1.observed_at m hchain)
  obtain ⟨_, hA, _⟩ := hres
  have hstep : applyTicks emptyBPairState (t1 :: ts.take m) =
      applyTicks (apply_tick emptyBPairState t1) (ts.take m) := rfl
  rw [hstep, hA, List.map_cons, List.sum_cons]
  have hm : (ts.take m).length = m := by
    rw [List.length_take]
    simp only [List.length_cons] at hklen
    omega
  rw [hm]
  norm_num [add_comm 1 m]

/-- First concrete tick of the C4 witness scenario. -/
def tickA : Tick := { pair := "ETHUSD", price := 100, observed_at := 0 }

/-- Second concrete tick of the C4 witness scenario. -/
def tickB : Tick := { pair := "ETHUSD", price := 110, observed_at := 10 }

/-- Third concrete tick of the C4 witness scenario. -/
def tickC : Tick := { pair := "ETHUSD", price := 120, observed_at := 20 }

/-- Witness for C4: after three same-hour ticks at 100, 110 and 120 the
hourly average is 110. -/
theorem claim_C4_witness :
    (applyTicks emptyBPairState ([tickA, tickB, tickC].take 3)).hourly_average =
      some 110 := by
  have h := claim_C4 tickA [tickB, tickC]
    (by norm_num [tickA])
    (by simp only [SameHourChain, tickA, tickB, tickC]; norm_num)
    3 (by norm_num) (by simp)
  rw [h]
  norm_num [tickA, tickB, tickC]

end Claims
